import Mathlib

/-!
Verification of the extraction-and-quality-decision engine of PDF2Markdown
(source file: marker/extract_text.py) against its natural-language
specification.

Modelling conventions (shallow embedding):
* Python strings are modelled as `List Char` (a Python `str` is a sequence of
  Unicode code points).  `str.strip`/`lstrip`/`rstrip` are modelled with
  their ASCII whitespace characters, and `isalnum` with the ASCII
  alphanumerics; exotic Unicode whitespace/letter classes are not modelled.
* The external collaborators (rendering engine, OCR engine, tokenizer,
  spell checker) are modelled as oracle functions supplied as parameters;
  a call that may raise a `RuntimeError` is modelled as returning `Except`.
* Fallible core code returns `Except PyErr`; `PyErr.zeroDivision` models a
  Python `ZeroDivisionError` (which is *not* a `RuntimeError`, hence is not
  caught by the `except RuntimeError` handlers in the source).
* Numeric ratios and bounding-box coordinates are modelled as `ℚ`.
-/

set_option allowUnsafeReducibility true

attribute [semireducible] Rat.mul Rat.inv Rat.add Rat.sub

namespace Marker

/-- A Python string, modelled as its sequence of characters. -/
abbrev Str := List Char

/-- The ASCII whitespace characters stripped by Python's
`str.strip` / `str.lstrip` / `str.rstrip`. -/
def pyWs (c : Char) : Bool :=
  c = ' ' || c = '\t' || c = '\n' || c = '\r' || c = '\x0b' || c = '\x0c'

/-- Python `s.lstrip()`. -/
def pyLStrip (s : Str) : Str := s.dropWhile pyWs

/-- Python `s.rstrip()`. -/
def pyRStrip (s : Str) : Str := s.rdropWhile pyWs

/-- Python `s.strip()` (strip both ends). -/
def pyStrip (s : Str) : Str := pyRStrip (pyLStrip s)

/-- Python `c.isalnum()` for a single character (ASCII alphanumerics). -/
def pyIsAlnum (c : Char) : Bool := c.isAlpha || c.isDigit

/-- Python `w.isalnum()` for a string: nonempty and all characters
alphanumeric. -/
def pyIsAlnumStr (w : Str) : Bool := decide (w ≠ []) && w.all pyIsAlnum

/-- Exceptions raised by the core's own decision logic.  `ZeroDivisionError`
is the one the core itself can raise (at `spaces / len(text)` in
`detect_bad_ocr`); it is not a `RuntimeError`, so the source's
`except RuntimeError` handlers do not catch it. -/
inductive PyErr where
  | zeroDivision
deriving DecidableEq

/-- External collaborators used by `detect_bad_ocr`: the punctuation-aware
tokenizer (`wordpunct_tokenize`) and the spell-check service
(`len(SpellChecker(language=lang).unknown(words))`). -/
structure Ext where
  tokenize : Str → List Str
  unknown : Str → List Str → Nat

/-- A bounding box: left, top, right, bottom. -/
structure BBox where
  l : ℚ
  t : ℚ
  r : ℚ
  b : ℚ
deriving DecidableEq

/-- One raw span record as produced by the rendering or OCR engine
(the `s` dictionaries in `page.get_text("dict")["blocks"]`). -/
structure RawSpan where
  text : Str
  bbox : BBox
  font : Str
  flags : Nat
  color : Nat
  ascender : ℚ
  descender : ℚ
deriving DecidableEq

/-- One raw line record (`l` in the source). -/
structure RawLine where
  spans : List RawSpan
  bbox : BBox
deriving DecidableEq

/-- One raw block record (`block` in the source). -/
structure RawBlock where
  lines : List RawLine
  bbox : BBox
deriving DecidableEq

/-- Result of a successful full-page OCR attempt: the hierarchical block
records and the engine's own recognized page text (`full_text`). -/
structure PageOcrResult where
  blocks : List RawBlock
  full_text : Str
deriving DecidableEq

/-- The external behaviour of one document page: its native extraction
records, the outcome of a full-page OCR attempt (`Except.error` modelling a
`RuntimeError`), and the outcome of fragment OCR over a clip rectangle
(`get_pixmap` + `pdfocr_tobytes` + `get_text`, `Except.error` modelling a
`RuntimeError`). -/
structure PageExt where
  native_blocks : List RawBlock
  pageOcr : Except Unit PageOcrResult
  fragOcr : BBox → Except Unit Str

/-- A document: its pages together with its (opaque, passed-through)
table of contents. -/
structure Doc (τ : Type) where
  pages : List PageExt
  toc : τ

/-- Configuration consumed by the core: the `settings.INVALID_CHARS` set. -/
structure Cfg where
  invalid_chars : List Char

/-- Words produced for `detect_bad_ocr`: tokenize, then drop
whitespace-only tokens (`[w for w in words if w.strip()]`). -/
def dboWords (ext : Ext) (text : Str) : List Str :=
  (ext.tokenize text).filter fun w => decide (pyStrip w ≠ [])

/-- The alphanumeric tokens (`[word for word in words if word.isalnum()]`). -/
def alphaWords (ext : Ext) (text : Str) : List Str :=
  (dboWords ext text).filter pyIsAlnumStr

/-- The non-alphanumeric tokens. -/
def nonalphaWords (ext : Ext) (text : Str) : List Str :=
  (dboWords ext text).filter fun w => !pyIsAlnumStr w

/-- The spell-check branch of `detect_bad_ocr`: runs only when `spell_lang`
is truthy (Python: non-`None` and nonempty), and triggers when
`len(misspelled) + len(nonalpha_words) > len(words) * misspell_threshold`. -/
def spellBranch (ext : Ext) (text : Str) (spell_lang : Option Str)
    (misspell_threshold : ℚ) : Bool :=
  match spell_lang with
  | none => false
  | some sl =>
    if sl = [] then false
    else decide ((ext.unknown sl (alphaWords ext text) : ℚ) +
      (nonalphaWords ext text).length >
      ((dboWords ext text).length : ℚ) * misspell_threshold)

/-- Embedding of `detect_bad_ocr(text, spell_lang, misspell_threshold,
space_threshold, newline_threshold)`.  The divisions `spaces / len(text)`
and `newlines / len(text)` raise `ZeroDivisionError` when the text is
empty. -/
def detect_bad_ocr (ext : Ext) (text : Str) (spell_lang : Option Str)
    (misspell_threshold space_threshold newline_threshold : ℚ) :
    Except PyErr Bool :=
  if spellBranch ext text spell_lang misspell_threshold then .ok true
  else if text.length = 0 then .error .zeroDivision
  else if (text.count ' ' : ℚ) / (text.length : ℚ) > space_threshold then .ok true
  else if (text.count '\n' : ℚ) / (text.length : ℚ) > newline_threshold then .ok true
  else .ok false

/-- Default `misspell_threshold=.8` of the source. -/
def misspell_default : ℚ := 8/10

/-- Default `space_threshold=.5` of the source. -/
def space_default : ℚ := 1/2

/-- Default `newline_threshold=.3` of the source. -/
def newline_default : ℚ := 3/10

/-- Embedding of `ocr_entire_page(page, lang, spell_lang)`.  A
`RuntimeError` from the OCR engine is caught and yields `[]`; a rejection by
`detect_bad_ocr` yields `[]`; but a `ZeroDivisionError` raised inside
`detect_bad_ocr` is *not* caught (only `RuntimeError` is). -/
def ocr_entire_page (ext : Ext) (pext : PageExt) (spell_lang : Option Str) :
    Except PyErr (List RawBlock) :=
  match pext.pageOcr with
  | .error _ => .ok []
  | .ok res =>
    match detect_bad_ocr ext res.full_text spell_lang
        misspell_default space_default newline_default with
    | .error e => .error e
    | .ok true => .ok []
    | .ok false => .ok res.blocks

/-- Embedding of `ocr_bbox(page, old_text, bbox, lang)`.  `fragOcr bbox`
models the body of the `try` (open the OCR pdf of the clip and read its
text); on `RuntimeError` or blank recognized text the original text is
returned; otherwise the recognized text is re-padded with as many plain
`' '` characters as `lstrip`/`rstrip` would trim from the original. -/
def ocr_bbox (fragOcr : BBox → Except Unit Str) (old_text : Str) (bb : BBox) : Str :=
  match fragOcr bb with
  | .error _ => old_text
  | .ok new_text =>
    if pyStrip new_text = [] then old_text
    else
      let lblanks := old_text.length - (pyLStrip old_text).length
      let rblanks := old_text.length - (pyRStrip old_text).length
      List.replicate lblanks ' ' ++ new_text ++ List.replicate rblanks ' '

/-- Embedding of `font_flags_decomposer(flags)`. -/
def font_flags_decomposer (flags : Nat) : Str :=
  let l : List Str :=
    (if flags &&& 1 ≠ 0 then [['s','u','p','e','r','s','c','r','i','p','t']] else []) ++
    (if flags &&& 2 ≠ 0 then [['i','t','a','l','i','c']] else []) ++
    (if flags &&& 4 ≠ 0 then [['s','e','r','i','f','e','d']] else [['s','a','n','s']]) ++
    (if flags &&& 8 ≠ 0 then [['m','o','n','o','s','p','a','c','e','d']] else
      [['p','r','o','p','o','r','t','i','o','n','a','l']]) ++
    (if flags &&& 16 ≠ 0 then [['b','o','l','d']] else [])
  List.intercalate ['_'] l

/-- Modelled from the spec: the `Span` entity of `marker/schema.py` (not
under `src/`), §3 of the spec — text, bounding box, page-unique identifier,
composite font descriptor, color, ascender, descender. -/
structure Span where
  text : Str
  bbox : BBox
  span_id : Str
  font : Str
  color : Nat
  ascender : ℚ
  descender : ℚ
deriving DecidableEq

/-- Modelled from the spec: the `Line` entity of `marker/schema.py` (not
under `src/`): an ordered sequence of spans plus a bounding box. -/
structure Line where
  spans : List Span
  bbox : BBox
deriving DecidableEq

/-- Modelled from the spec: `Line.area` of `marker/schema.py` (not under
`src/`), §3 of the spec: area = (right−left)×(bottom−top). -/
def Line.area (l : Line) : ℚ := (l.bbox.r - l.bbox.l) * (l.bbox.b - l.bbox.t)

/-- Modelled from the spec: the `Block` entity of `marker/schema.py` (not
under `src/`). -/
structure Block where
  lines : List Line
  bbox : BBox
  pnum : Nat
deriving DecidableEq

/-- Modelled from the spec: the `Page` entity of `marker/schema.py` (not
under `src/`). -/
structure Page where
  blocks : List Block
  pnum : Nat
deriving DecidableEq

/-- Concatenated text of a line's spans. -/
def Line.text (l : Line) : Str := (l.spans.map Span.text).flatten

/-- Modelled from the spec: `Page.prelim_text` of `marker/schema.py` (not
under `src/`), §3 of the spec: "concatenation of all span text in reading
order". -/
def Page.prelim_text (p : Page) : Str :=
  ((p.blocks.map fun b => (b.lines.map Line.text).flatten).flatten)

/-- Modelled from the spec: `Page.get_nonblank_lines` of `marker/schema.py`
(not under `src/`), §3 of the spec: the lines "whose concatenated text is
non-blank after trimming". -/
def Page.get_nonblank_lines (p : Page) : List Line :=
  ((p.blocks.map Block.lines).flatten).filter fun l => decide (pyStrip l.text ≠ [])

/-- The span identifier `f"{pnum}_{span_id}"` built in
`get_single_page_blocks`. -/
def span_id_str (pnum sid : Nat) : Str :=
  (Nat.repr pnum).data ++ '_' :: (Nat.repr sid).data

/-- Construction of one `Span` object inside `get_single_page_blocks`:
fragment OCR replaces the text when it contains a configured invalid
character; the font descriptor appends the decomposed flags. -/
def buildSpan (cfg : Cfg) (fragOcr : BBox → Except Unit Str) (pnum sid : Nat)
    (s : RawSpan) : Span :=
  let block_text :=
    if s.text.any (fun c => c ∈ cfg.invalid_chars) then ocr_bbox fragOcr s.text s.bbox
    else s.text
  { text := block_text
    bbox := s.bbox
    span_id := span_id_str pnum sid
    font := s.font ++ '_' :: font_flags_decomposer s.flags
    color := s.color
    ascender := s.ascender
    descender := s.descender }

/-- The inner span loop of `get_single_page_blocks`, threading the
page-scoped `span_id` counter. -/
def buildSpans (cfg : Cfg) (fragOcr : BBox → Except Unit Str) (pnum : Nat) :
    Nat → List RawSpan → List Span × Nat
  | sid, [] => ([], sid)
  | sid, s :: rest =>
    let sp := buildSpan cfg fragOcr pnum sid s
    let more := buildSpans cfg fragOcr pnum (sid + 1) rest
    (sp :: more.1, more.2)

/-- The line loop of `get_single_page_blocks`: build every span (the counter
advances for all of them), then keep the line only if its bounding-box area
is strictly positive. -/
def buildLines (cfg : Cfg) (fragOcr : BBox → Except Unit Str) (pnum : Nat) :
    Nat → List RawLine → List Line × Nat
  | sid, [] => ([], sid)
  | sid, l :: rest =>
    let sp := buildSpans cfg fragOcr pnum sid l.spans
    let line_obj : Line := ⟨sp.1, l.bbox⟩
    let more := buildLines cfg fragOcr pnum sp.2 rest
    (if line_obj.area > 0 then line_obj :: more.1 else more.1, more.2)

/-- The block loop of `get_single_page_blocks`: keep the block only if it
retained at least one line. -/
def buildBlocks (cfg : Cfg) (fragOcr : BBox → Except Unit Str) (pnum : Nat) :
    Nat → List RawBlock → List Block × Nat
  | sid, [] => ([], sid)
  | sid, b :: rest =>
    let bl := buildLines cfg fragOcr pnum sid b.lines
    let block_obj : Block := ⟨bl.1, b.bbox, pnum⟩
    let more := buildBlocks cfg fragOcr pnum bl.2 rest
    (if bl.1.length > 0 then block_obj :: more.1 else more.1, more.2)

/-- The hierarchy-building part of `get_single_page_blocks`, starting the
span counter at 0. -/
def build_page_blocks (cfg : Cfg) (fragOcr : BBox → Except Unit Str)
    (pnum : Nat) (blocks : List RawBlock) : List Block :=
  (buildBlocks cfg fragOcr pnum 0 blocks).1

/-- Embedding of `get_single_page_blocks(page, pnum, tess_lang, spell_lang,
ocr)`: choose the raw records (native, or full-page OCR when `ocr=True`),
then build the hierarchy. -/
def get_single_page_blocks (ext : Ext) (cfg : Cfg) (pext : PageExt) (pnum : Nat)
    (spell_lang : Option Str) (ocr : Bool) : Except PyErr (List Block) :=
  match (if ocr then ocr_entire_page ext pext spell_lang else .ok pext.native_blocks) with
  | .error e => .error e
  | .ok blocks => .ok (build_page_blocks cfg pext.fragOcr pnum blocks)

/-- Embedding of `alphanum_ratio(text)`: the fraction of alphanumeric
characters, with empty text scored 1 (the `0` branch is kept although it is
unreachable, mirroring the source). -/
def alphanum_ratio (text : Str) : ℚ :=
  let alphanumeric_count := (text.filter pyIsAlnum).length
  if text.length = 0 then (if alphanumeric_count = 0 then 1 else 0)
  else (alphanumeric_count : ℚ) / (text.length : ℚ)

/-- The OCR-retry trigger of `get_text_blocks`: `all(conditions)` — (fewer
than 3 non-blank lines AND `page_extracted` false, OR alphanumeric ratio
below 0.6) AND the page position is strictly inside the first-3/last-2
margins. -/
def ocrTrigger (docLen pnum : Nat) (page_extracted : Bool) (pg : Page) : Prop :=
  ((pg.get_nonblank_lines.length < 3 ∧ page_extracted = false) ∨
    alphanum_ratio pg.prelim_text < 3/5) ∧
  (2 < pnum ∧ pnum < docLen - 2)

instance (docLen pnum : Nat) (ex : Bool) (pg : Page) :
    Decidable (ocrTrigger docLen pnum ex pg) := by
  unfold ocrTrigger
  infer_instance

/-- One iteration of the page loop of `get_text_blocks`, instrumented: the
entry records the `page_extracted` flag the page consulted (`flagIn`), the
resulting `Page`, and whether the page was re-processed with full-page OCR
(`retried`). -/
structure Entry where
  flagIn : Bool
  page : Page
  retried : Bool
deriving DecidableEq

/-- The `Page` object a page's native pass produces
(`page_obj = Page(blocks=get_single_page_blocks(page, pnum, tess_lang),
pnum=pnum)`; the native call, `ocr = false`, never raises — its embedding is
definitionally `.ok (build_page_blocks …)`). -/
def nativePageObj (cfg : Cfg) (pext : PageExt) (pnum : Nat) : Page :=
  ⟨build_page_blocks cfg pext.fragOcr pnum pext.native_blocks, pnum⟩

/-- The body of the `for pnum, page in enumerate(doc)` loop for one page. -/
def stepPage (ext : Ext) (cfg : Cfg) (docLen : Nat) (spell_lang : Option Str)
    (pnum : Nat) (page_extracted : Bool) (pext : PageExt) : Except PyErr Entry :=
  if ocrTrigger docLen pnum page_extracted (nativePageObj cfg pext pnum) then
    match get_single_page_blocks ext cfg pext pnum spell_lang true with
    | .error e => .error e
    | .ok oblocks => .ok ⟨page_extracted, ⟨oblocks, pnum⟩, true⟩
  else .ok ⟨page_extracted, nativePageObj cfg pext pnum, false⟩

/-- The Python truthiness test `if max_pages and pnum >= max_pages: break`:
`None` and `0` disable the limit. -/
def pageBreak (max_pages : Option Nat) (pnum : Nat) : Bool :=
  match max_pages with
  | none => false
  | some m => if m = 0 then false else decide (pnum ≥ m)

/-- The page loop of `get_text_blocks`: after a page that entered ocr-retry
the `page_extracted` flag is set to `False`, otherwise to `True` (so the
next page consults `!retried` of this page). -/
def runPages (ext : Ext) (cfg : Cfg) (docLen : Nat) (spell_lang : Option Str)
    (max_pages : Option Nat) :
    Nat → Bool → List PageExt → Except PyErr (List Entry)
  | _, _, [] => .ok []
  | pnum, page_extracted, p :: rest =>
    if pageBreak max_pages pnum then .ok []
    else
      match stepPage ext cfg docLen spell_lang pnum page_extracted p with
      | .error e => .error e
      | .ok e =>
        match runPages ext cfg docLen spell_lang max_pages (pnum + 1) (!e.retried) rest with
        | .error er => .error er
        | .ok es => .ok (e :: es)

/-- Embedding of `get_text_blocks(doc, tess_lang, spell_lang, max_pages)`:
run all pages starting with `page_extracted = False`, return the ordered
page list and the pass-through table of contents. -/
def get_text_blocks {τ : Type} (ext : Ext) (cfg : Cfg) (doc : Doc τ)
    (spell_lang : Option Str) (max_pages : Option Nat) :
    Except PyErr (List Page × τ) :=
  match runPages ext cfg doc.pages.length spell_lang max_pages 0 false doc.pages with
  | .error e => .error e
  | .ok es => .ok (es.map Entry.page, doc.toc)

/-! Helper lemmas about decimal representations, used for the span-identifier
claims: `Nat.repr` is injective. -/

/-- The decimal digit list (most significant first) of a natural number,
defined structurally so that it can be reasoned about; it agrees with the
fuel-based `Nat.toDigitsCore` used by `Nat.repr`. -/
def decDigits (n : Nat) : List Char :=
  if h : n / 10 = 0 then [Nat.digitChar (n % 10)]
  else decDigits (n / 10) ++ [Nat.digitChar (n % 10)]
decreasing_by
  exact Nat.div_lt_self (by omega) (by omega)

theorem decDigits_of_div_eq_zero {n : Nat} (h : n / 10 = 0) :
    decDigits n = [Nat.digitChar (n % 10)] := by
  rw [decDigits]
  exact dif_pos h

theorem decDigits_of_div_ne_zero {n : Nat} (h : ¬ n / 10 = 0) :
    decDigits n = decDigits (n / 10) ++ [Nat.digitChar (n % 10)] := by
  conv_lhs => rw [decDigits]
  exact dif_neg h

theorem toDigitsCore_eq_decDigits (f : Nat) :
    ∀ (n : Nat) (acc : List Char), n < f →
      Nat.toDigitsCore 10 f n acc = decDigits n ++ acc := by
  induction f with
  | zero => intro n acc h; omega
  | succ f ih =>
    intro n acc h
    rw [Nat.toDigitsCore]
    by_cases h0 : n / 10 = 0
    · rw [if_pos h0, decDigits_of_div_eq_zero h0]
      simp
    · rw [if_neg h0, ih (n / 10) _ (by
        have h10 : 10 ≤ n := by
          by_contra hc
          exact h0 (Nat.div_eq_of_lt (by omega))
        have := Nat.div_lt_self (show 0 < n by omega) (show 1 < 10 by omega)
        omega)]
      rw [decDigits_of_div_ne_zero h0]
      simp

theorem repr_data_eq_decDigits (n : Nat) : (Nat.repr n).data = decDigits n := by
  show (Nat.toDigits 10 n).asString.data = decDigits n
  rw [Nat.toDigits, toDigitsCore_eq_decDigits (n + 1) n [] (Nat.lt_succ_self n)]
  simp [List.asString]

theorem digitChar_inj_of_lt_ten :
    ∀ m < 10, ∀ n < 10, Nat.digitChar m = Nat.digitChar n → m = n := by decide

theorem decDigits_ne_nil (n : Nat) : decDigits n ≠ [] := by
  by_cases h : n / 10 = 0
  · rw [decDigits_of_div_eq_zero h]
    simp
  · rw [decDigits_of_div_ne_zero h]
    simp

theorem decDigits_injective : ∀ m n : Nat, decDigits m = decDigits n → m = n := by
  intro m
  induction m using Nat.strong_induction_on with
  | _ m ih =>
    intro n h
    by_cases hm : m / 10 = 0 <;> by_cases hn : n / 10 = 0
    · rw [decDigits_of_div_eq_zero hm, decDigits_of_div_eq_zero hn] at h
      have := digitChar_inj_of_lt_ten (m % 10) (Nat.mod_lt _ (by omega)) (n % 10)
        (Nat.mod_lt _ (by omega)) (by simpa using h)
      omega
    · exfalso
      rw [decDigits_of_div_eq_zero hm, decDigits_of_div_ne_zero hn] at h
      have hlen := congrArg List.length h
      have hpos := List.length_pos.mpr (decDigits_ne_nil (n / 10))
      rw [List.length_append] at hlen
      simp only [List.length_singleton] at hlen
      omega
    · exfalso
      rw [decDigits_of_div_ne_zero hm, decDigits_of_div_eq_zero hn] at h
      have hlen := congrArg List.length h
      have hpos := List.length_pos.mpr (decDigits_ne_nil (m / 10))
      rw [List.length_append] at hlen
      simp only [List.length_singleton] at hlen
      omega
    · rw [decDigits_of_div_ne_zero hm, decDigits_of_div_ne_zero hn] at h
      have h' := congrArg List.reverse h
      simp only [List.reverse_append, List.reverse_singleton, List.singleton_append,
        List.cons.injEq] at h'
      have hmod := digitChar_inj_of_lt_ten (m % 10) (Nat.mod_lt _ (by omega)) (n % 10)
        (Nat.mod_lt _ (by omega)) h'.1
      have hdiv : m / 10 = n / 10 := by
        apply ih (m / 10) (Nat.div_lt_self (by omega) (by omega))
        have := congrArg List.reverse h'.2
        simpa using this
      omega

theorem repr_data_injective {m n : Nat} (h : (Nat.repr m).data = (Nat.repr n).data) :
    m = n := by
  rw [repr_data_eq_decDigits, repr_data_eq_decDigits] at h
  exact decDigits_injective m n h

theorem span_id_str_inj (pnum : Nat) {i j : Nat}
    (h : span_id_str pnum i = span_id_str pnum j) : i = j := by
  unfold span_id_str at h
  have h2 := List.append_cancel_left h
  have h3 : (Nat.repr i).data = (Nat.repr j).data := by
    simpa using h2
  exact repr_data_injective h3

/-! Helper lemmas about the Python strip operations. -/

theorem length_takeWhile_add_dropWhile (p : Char → Bool) (s : Str) :
    (s.takeWhile p).length + (s.dropWhile p).length = s.length := by
  have h := congrArg List.length (List.takeWhile_append_dropWhile (p := p) (l := s))
  rw [List.length_append] at h
  exact h

theorem length_rtakeWhile_add_rdropWhile (p : Char → Bool) (s : Str) :
    (s.rtakeWhile p).length + (s.rdropWhile p).length = s.length := by
  rw [List.rtakeWhile, List.rdropWhile, List.length_reverse, List.length_reverse]
  have := length_takeWhile_add_dropWhile p s.reverse
  rw [List.length_reverse] at this
  exact this

theorem replicate_takeWhile_append (s : Str)
    (h : ∀ c ∈ s.takeWhile pyWs, c = ' ') :
    List.replicate (s.length - (pyLStrip s).length) ' ' ++ pyLStrip s = s := by
  have hlen : s.length - (pyLStrip s).length = (s.takeWhile pyWs).length := by
    have := length_takeWhile_add_dropWhile pyWs s
    unfold pyLStrip
    omega
  rw [hlen, ((List.eq_replicate_length).mpr h).symm]
  exact List.takeWhile_append_dropWhile ..

theorem rdropWhile_append_replicate (s : Str)
    (h : ∀ c ∈ s.rtakeWhile pyWs, c = ' ') :
    pyRStrip s ++ List.replicate (s.length - (pyRStrip s).length) ' ' = s := by
  have hlen : s.length - (pyRStrip s).length = (s.rtakeWhile pyWs).length := by
    have := length_rtakeWhile_add_rdropWhile pyWs s
    unfold pyRStrip
    omega
  rw [hlen, ((List.eq_replicate_length).mpr h).symm]
  show (List.dropWhile pyWs s.reverse).reverse ++ (List.takeWhile pyWs s.reverse).reverse = s
  rw [← List.reverse_append, List.takeWhile_append_dropWhile, List.reverse_reverse]

theorem takeWhile_append_of_exists_not (p : Char → Bool) (Y X : Str)
    (h : ∃ c ∈ Y, ¬ p c) : (Y ++ X).takeWhile p = Y.takeWhile p := by
  induction Y with
  | nil => simp at h
  | cons a t ih =>
    obtain ⟨c, hc, hpc⟩ := h
    by_cases hpa : p a
    · simp only [List.cons_append, List.takeWhile_cons, hpa]
      have hct : c ∈ t := by
        rcases List.mem_cons.mp hc with rfl | h'
        · exact absurd hpa hpc
        · exact h'
      rw [ih ⟨c, hct, hpc⟩]
    · simp [List.takeWhile_cons, hpa]

theorem rtakeWhile_append_of_exists_not (p : Char → Bool) (X Y : Str)
    (h : ∃ c ∈ Y, ¬ p c) : (X ++ Y).rtakeWhile p = Y.rtakeWhile p := by
  rw [List.rtakeWhile, List.rtakeWhile, List.reverse_append]
  rw [takeWhile_append_of_exists_not p Y.reverse X.reverse
    (by obtain ⟨c, hc, hp⟩ := h; exact ⟨c, List.mem_reverse.mpr hc, hp⟩)]

theorem pyStrip_ne_nil_lstrip (s : Str) (h : pyStrip s ≠ []) : pyLStrip s ≠ [] := by
  intro hc
  apply h
  unfold pyStrip pyRStrip
  rw [hc]
  rfl

theorem exists_not_ws_of_strip_ne_nil (s : Str) (h : pyStrip s ≠ []) :
    ∃ c ∈ pyLStrip s, ¬ pyWs c := by
  by_contra hc
  push_neg at hc
  apply h
  unfold pyStrip pyRStrip
  exact List.rdropWhile_eq_nil_iff.mpr (by simpa using hc)

theorem dropWhile_eq_cons_head_false (p : Char → Bool) :
    ∀ (l : Str) (a : Char) (r : Str), l.dropWhile p = a :: r → p a = false := by
  intro l
  induction l with
  | nil =>
    intro a r har
    simp at har
  | cons x xs ih =>
    intro a r har
    rw [List.dropWhile_cons] at har
    by_cases hx : p x
    · rw [if_pos hx] at har
      exact ih a r har
    · rw [if_neg hx] at har
      obtain ⟨rfl, -⟩ := List.cons.inj har
      simpa using hx

theorem pyStrip_idem_of_ne_nil (s : Str) (h : pyStrip s ≠ []) :
    pyStrip (pyStrip s) = pyStrip s := by
  have hL : pyLStrip s ≠ [] := pyStrip_ne_nil_lstrip s h
  obtain ⟨a, t, hs⟩ : ∃ a t, pyStrip s = a :: t := by
    cases hps : pyStrip s with
    | nil => exact absurd hps h
    | cons a t => exact ⟨a, t, rfl⟩
  -- the stripped text is a prefix of the left-stripped text
  obtain ⟨tl, htl⟩ : ∃ tl, pyStrip s ++ tl = pyLStrip s :=
    List.rdropWhile_prefix pyWs (pyLStrip s)
  have hLcons : s.dropWhile pyWs = a :: (t ++ tl) := by
    show pyLStrip s = a :: (t ++ tl)
    rw [← htl, hs]
    rfl
  have ha : pyWs a = false := dropWhile_eq_cons_head_false pyWs s a (t ++ tl) hLcons
  have hl : pyLStrip (pyStrip s) = pyStrip s := by
    rw [hs]
    show List.dropWhile pyWs (a :: t) = a :: t
    rw [List.dropWhile_cons, ha]
    simp
  show pyRStrip (pyLStrip (pyStrip s)) = pyStrip s
  rw [hl]
  show List.rdropWhile pyWs (List.rdropWhile pyWs (pyLStrip s)) = pyStrip s
  exact List.rdropWhile_idempotent pyWs (pyLStrip s)

/-! Structural lemmas about the hierarchy builder. -/

/-- Total number of raw spans in a list of raw lines. -/
def totalSpansL (rls : List RawLine) : Nat := (rls.map fun l => l.spans.length).sum

/-- Total number of raw spans in a list of raw blocks. -/
def totalSpansB (rbs : List RawBlock) : Nat := (rbs.map fun b => totalSpansL b.lines).sum

/-- The span identifiers of a span list, in order. -/
def spanIds (spans : List Span) : List Str := spans.map Span.span_id

/-- The span identifiers of the spans of a line list, in order. -/
def lineIds (ls : List Line) : List Str := (ls.map fun l => spanIds l.spans).flatten

/-- The span identifiers of all spans of a block list, in order. -/
def blockIds (bs : List Block) : List Str := (bs.map fun b => lineIds b.lines).flatten

theorem buildSpans_snd (cfg : Cfg) (f : BBox → Except Unit Str) (pnum : Nat) :
    ∀ (raws : List RawSpan) (sid : Nat),
      (buildSpans cfg f pnum sid raws).2 = sid + raws.length := by
  intro raws
  induction raws with
  | nil => intro sid; simp [buildSpans]
  | cons s rest ih =>
    intro sid
    simp only [buildSpans, ih (sid + 1), List.length_cons]
    omega

theorem buildSpans_ids (cfg : Cfg) (f : BBox → Except Unit Str) (pnum : Nat) :
    ∀ (raws : List RawSpan) (sid : Nat),
      spanIds (buildSpans cfg f pnum sid raws).1 =
        (List.range' sid raws.length).map (span_id_str pnum) := by
  intro raws
  induction raws with
  | nil => intro sid; simp [buildSpans, spanIds]
  | cons s rest ih =>
    intro sid
    simp only [buildSpans, spanIds, List.map_cons, List.length_cons, List.range',
      buildSpan]
    rw [show (buildSpans cfg f pnum (sid + 1) rest).1.map Span.span_id =
      spanIds (buildSpans cfg f pnum (sid + 1) rest).1 from rfl, ih (sid + 1)]

theorem buildLines_snd (cfg : Cfg) (f : BBox → Except Unit Str) (pnum : Nat) :
    ∀ (rls : List RawLine) (sid : Nat),
      (buildLines cfg f pnum sid rls).2 = sid + totalSpansL rls := by
  intro rls
  induction rls with
  | nil => intro sid; simp [buildLines, totalSpansL]
  | cons l rest ih =>
    intro sid
    simp only [buildLines, ih, buildSpans_snd, totalSpansL, List.map_cons, List.sum_cons]
    omega

theorem buildLines_area (cfg : Cfg) (f : BBox → Except Unit Str) (pnum : Nat) :
    ∀ (rls : List RawLine) (sid : Nat) (l : Line),
      l ∈ (buildLines cfg f pnum sid rls).1 → 0 < l.area := by
  intro rls
  induction rls with
  | nil => intro sid l hl; simp [buildLines] at hl
  | cons r rest ih =>
    intro sid l hl
    simp only [buildLines] at hl
    split at hl
    · rcases List.mem_cons.mp hl with rfl | hmem
      · assumption
      · exact ih _ _ hmem
    · exact ih _ _ hl

theorem buildLines_ids (cfg : Cfg) (f : BBox → Except Unit Str) (pnum : Nat) :
    ∀ (rls : List RawLine) (sid : Nat),
      List.Sublist (lineIds (buildLines cfg f pnum sid rls).1)
        ((List.range' sid (totalSpansL rls)).map (span_id_str pnum)) := by
  intro rls
  induction rls with
  | nil => intro sid; simp [buildLines, lineIds]
  | cons r rest ih =>
    intro sid
    have hsplit : (List.range' sid (totalSpansL (r :: rest))).map (span_id_str pnum) =
        (List.range' sid r.spans.length).map (span_id_str pnum) ++
        (List.range' (sid + r.spans.length) (totalSpansL rest)).map (span_id_str pnum) := by
      rw [← List.map_append, List.range'_append_1]
      have : totalSpansL (r :: rest) = totalSpansL rest + r.spans.length := by
        simp [totalSpansL]
        omega
      rw [this]
    rw [hsplit]
    simp only [buildLines]
    split
    · show List.Sublist (lineIds (⟨(buildSpans cfg f pnum sid r.spans).1, r.bbox⟩ ::
        (buildLines cfg f pnum (buildSpans cfg f pnum sid r.spans).2 rest).1)) _
      have hids : lineIds (⟨(buildSpans cfg f pnum sid r.spans).1, r.bbox⟩ ::
          (buildLines cfg f pnum (buildSpans cfg f pnum sid r.spans).2 rest).1) =
          spanIds (buildSpans cfg f pnum sid r.spans).1 ++
          lineIds (buildLines cfg f pnum (buildSpans cfg f pnum sid r.spans).2 rest).1 := by
        simp [lineIds]
      rw [hids, buildSpans_ids]
      exact List.Sublist.append (List.Sublist.refl _)
        (by rw [← buildSpans_snd cfg f pnum r.spans sid]; exact ih _)
    · apply List.Sublist.trans _ (List.sublist_append_right _ _)
      rw [← buildSpans_snd cfg f pnum r.spans sid]
      exact ih _

theorem buildBlocks_inv (cfg : Cfg) (f : BBox → Except Unit Str) (pnum : Nat) :
    ∀ (rbs : List RawBlock) (sid : Nat) (b : Block),
      b ∈ (buildBlocks cfg f pnum sid rbs).1 →
        b.lines ≠ [] ∧ ∀ l ∈ b.lines, 0 < l.area := by
  intro rbs
  induction rbs with
  | nil => intro sid b hb; simp [buildBlocks] at hb
  | cons r rest ih =>
    intro sid b hb
    simp only [buildBlocks] at hb
    by_cases hlen : (buildLines cfg f pnum sid r.lines).1.length > 0
    · rw [if_pos hlen] at hb
      rcases List.mem_cons.mp hb with rfl | hmem
      · refine ⟨?_, fun l hl => buildLines_area cfg f pnum r.lines sid l hl⟩
        exact List.length_pos.mp hlen
      · exact ih _ _ hmem
    · rw [if_neg hlen] at hb
      exact ih _ _ hb

theorem buildBlocks_ids (cfg : Cfg) (f : BBox → Except Unit Str) (pnum : Nat) :
    ∀ (rbs : List RawBlock) (sid : Nat),
      List.Sublist (blockIds (buildBlocks cfg f pnum sid rbs).1)
        ((List.range' sid (totalSpansB rbs)).map (span_id_str pnum)) := by
  intro rbs
  induction rbs with
  | nil => intro sid; simp [buildBlocks, blockIds]
  | cons r rest ih =>
    intro sid
    have hsplit : (List.range' sid (totalSpansB (r :: rest))).map (span_id_str pnum) =
        (List.range' sid (totalSpansL r.lines)).map (span_id_str pnum) ++
        (List.range' (sid + totalSpansL r.lines) (totalSpansB rest)).map (span_id_str pnum) := by
      rw [← List.map_append, List.range'_append_1]
      have : totalSpansB (r :: rest) = totalSpansB rest + totalSpansL r.lines := by
        simp [totalSpansB]
        omega
      rw [this]
    rw [hsplit]
    simp only [buildBlocks]
    have hih := ih ((buildLines cfg f pnum sid r.lines).2)
    nth_rewrite 2 [buildLines_snd cfg f pnum r.lines sid] at hih
    split
    · have hids : blockIds (⟨(buildLines cfg f pnum sid r.lines).1, r.bbox, pnum⟩ ::
          (buildBlocks cfg f pnum (buildLines cfg f pnum sid r.lines).2 rest).1) =
          lineIds (buildLines cfg f pnum sid r.lines).1 ++
          blockIds (buildBlocks cfg f pnum (buildLines cfg f pnum sid r.lines).2 rest).1 := by
        simp [blockIds]
      rw [hids]
      exact List.Sublist.append (buildLines_ids cfg f pnum r.lines sid) hih
    · exact hih.trans (List.sublist_append_right _ _)

/-! Inversion lemmas about the orchestrator. -/

theorem get_single_page_blocks_native (ext : Ext) (cfg : Cfg) (pext : PageExt)
    (pnum : Nat) (sl : Option Str) :
    get_single_page_blocks ext cfg pext pnum sl false =
      .ok (build_page_blocks cfg pext.fragOcr pnum pext.native_blocks) := rfl

theorem get_single_page_blocks_ocr_inv {ext : Ext} {cfg : Cfg} {pext : PageExt}
    {pnum : Nat} {sl : Option Str} {bl : List Block}
    (h : get_single_page_blocks ext cfg pext pnum sl true = .ok bl) :
    ∃ bs, ocr_entire_page ext pext sl = .ok bs ∧
      bl = build_page_blocks cfg pext.fragOcr pnum bs := by
  unfold get_single_page_blocks at h
  have hred : (if true then ocr_entire_page ext pext sl
      else Except.ok pext.native_blocks) = ocr_entire_page ext pext sl := rfl
  rw [hred] at h
  cases hocr : ocr_entire_page ext pext sl with
  | error e =>
    rw [hocr] at h
    simp at h
  | ok bs =>
    rw [hocr] at h
    simp only [Except.ok.injEq] at h
    exact ⟨bs, rfl, h.symm⟩

theorem stepPage_ok_inv {ext : Ext} {cfg : Cfg} {dl : Nat} {sl : Option Str}
    {pnum : Nat} {ex : Bool} {pext : PageExt} {e : Entry}
    (h : stepPage ext cfg dl sl pnum ex pext = .ok e) :
    e.flagIn = ex ∧ e.page.pnum = pnum ∧
      (e.retried = true ↔ ocrTrigger dl pnum ex (nativePageObj cfg pext pnum)) ∧
      (e.retried = false → e.page = nativePageObj cfg pext pnum) ∧
      (e.retried = true → ∃ bs, ocr_entire_page ext pext sl = .ok bs ∧
        e.page = ⟨build_page_blocks cfg pext.fragOcr pnum bs, pnum⟩) := by
  unfold stepPage at h
  by_cases htrig : ocrTrigger dl pnum ex (nativePageObj cfg pext pnum)
  · rw [if_pos htrig] at h
    cases hocr : get_single_page_blocks ext cfg pext pnum sl true with
    | error er =>
      rw [hocr] at h
      simp at h
    | ok oblocks =>
      rw [hocr] at h
      simp only [Except.ok.injEq] at h
      subst h
      refine ⟨rfl, rfl, ⟨fun _ => htrig, fun _ => rfl⟩, by simp, fun _ => ?_⟩
      obtain ⟨bs, hbs, hbl⟩ := get_single_page_blocks_ocr_inv hocr
      exact ⟨bs, hbs, by rw [hbl]⟩
  · rw [if_neg htrig] at h
    simp only [Except.ok.injEq] at h
    subst h
    exact ⟨rfl, rfl, ⟨fun hf => by simp at hf, fun ht => absurd ht htrig⟩,
      fun _ => rfl, fun hf => by simp at hf⟩

/-! Concrete inputs used by witnesses and counterexamples. -/

/-- A concrete external-collaborator bundle: the tokenizer returns no tokens
and the spell checker reports no unknown words (matching the real services'
behaviour on empty input). -/
def ext0 : Ext := ⟨fun _ => [], fun _ _ => 0⟩

/-- A concrete configuration with no invalid characters. -/
def cfg0 : Cfg := ⟨[]⟩

/-- A concrete unit bounding box (area 1). -/
def bb0 : BBox := ⟨0, 0, 1, 1⟩

/-- A fragment-OCR oracle that always raises. -/
def noFrag : BBox → Except Unit Str := fun _ => .error ()

/-- A raw span with the given text. -/
def rawSpanOf (t : Str) : RawSpan := ⟨t, bb0, ['f'], 0, 0, 0, 0⟩

/-- A raw line with a single span. -/
def rawLineOf (t : Str) : RawLine := ⟨[rawSpanOf t], bb0⟩

/-- A raw block with one single-span line per given text. -/
def rawBlockOf (ts : List Str) : RawBlock := ⟨ts.map rawLineOf, bb0⟩

/-- A page whose native extraction yields one block with the given line
texts, whose full-page OCR raises, and whose fragment OCR raises. -/
def plainPage (ts : List Str) : PageExt := ⟨[rawBlockOf ts], .error (), noFrag⟩

/-- A 7-page demo document: pages 0–2 and 5–6 are ordinary short pages,
page 3 has garbled native text (alphanumeric ratio 0), page 4 has two clean
non-blank lines (alphanumeric ratio 1). -/
def demoPages : List PageExt :=
  [plainPage [['h','i']], plainPage [['h','i']], plainPage [['h','i']],
   plainPage [['!','!','!']], plainPage [['a','b'], ['a','b']],
   plainPage [['h','i']], plainPage [['h','i']]]

/-- The orchestrator run over the demo document (no page limit). -/
def demoRun : Except PyErr (List Entry) :=
  runPages ext0 cfg0 7 none none 0 false demoPages

/-- The entries of the demo run. -/
def demoEntries : List Entry := demoRun.toOption.getD []

/-- The per-page ocr-retry decisions of a run. -/
def retriedList (r : Except PyErr (List Entry)) : List Bool :=
  match r with
  | .ok es => es.map Entry.retried
  | .error _ => []

/-- The per-page consulted `page_extracted` flags of a run. -/
def flagInList (r : Except PyErr (List Entry)) : List Bool :=
  match r with
  | .ok es => es.map Entry.flagIn
  | .error _ => []

/-- A dummy block used as a `getD` default. -/
def dummyBlock : Block := ⟨[], bb0, 0⟩

/-- The demo document with an opaque table of contents (here a `Nat`). -/
def demoDoc : Doc Nat := ⟨demoPages, 0⟩

/-- The pages returned by `get_text_blocks` on the demo document with
`max_pages = 2`. -/
def demoResultPages : List Page :=
  ((get_text_blocks ext0 cfg0 demoDoc none (some 2)).toOption.getD ([], 0)).1

/-- The table of contents returned alongside `demoResultPages`. -/
def demoResultToc : Nat :=
  ((get_text_blocks ext0 cfg0 demoDoc none (some 2)).toOption.getD ([], 0)).2

/-- The `Page` object page 4's native pass produces in the demo document. -/
def demoPage4native : Page :=
  nativePageObj cfg0 (plainPage [['a','b'], ['a','b']]) 4

/-! The claims. -/

/-- C1: the spec claims `detect_bad_ocr` terminates normally (returning
`True` or `False`) for every text including the empty string, and that
`ocr_entire_page` never raises even when the OCR engine's recognized
`full_text` is empty.  The code instead divides by `len(text)`: on empty
text `detect_bad_ocr` raises `ZeroDivisionError`, which is not a
`RuntimeError` and therefore escapes `ocr_entire_page` uncaught.  This
theorem evaluates the code at the failing input. -/
theorem C1_empty_text_zero_division :
    detect_bad_ocr ext0 [] none misspell_default space_default newline_default =
      .error .zeroDivision ∧
    ocr_entire_page ext0 ⟨[], .ok ⟨[], []⟩, noFrag⟩ none = .error .zeroDivision := by
  exact ⟨rfl, rfl⟩

/-- C7: threshold comparisons in `detect_bad_ocr` are strict.  For nonempty
text with no spell-check language the result is exactly the disjunction of
the two strict comparisons; in particular a space fraction equal to the
threshold does not trigger, a strictly larger one does, and with a
configured spell language the misspelling test uses the same strict
`>` comparison. -/
theorem C7_strict_thresholds (ext : Ext) (text : Str) (h : text ≠ [])
    (mt st nt : ℚ) :
    (detect_bad_ocr ext text none mt st nt =
      .ok (decide ((text.count ' ' : ℚ) / (text.length : ℚ) > st) ||
        decide ((text.count '\n' : ℚ) / (text.length : ℚ) > nt))) ∧
    ((text.count ' ' : ℚ) / (text.length : ℚ) = st →
      (text.count '\n' : ℚ) / (text.length : ℚ) ≤ nt →
      detect_bad_ocr ext text none mt st nt = .ok false) ∧
    ((text.count ' ' : ℚ) / (text.length : ℚ) > st →
      detect_bad_ocr ext text none mt st nt = .ok true) ∧
    (∀ sl : Str, sl ≠ [] →
      (((ext.unknown sl (alphaWords ext text) : ℚ) + (nonalphaWords ext text).length ≤
          ((dboWords ext text).length : ℚ) * mt) →
        detect_bad_ocr ext text (some sl) mt st nt =
          detect_bad_ocr ext text none mt st nt) ∧
      (((ext.unknown sl (alphaWords ext text) : ℚ) + (nonalphaWords ext text).length >
          ((dboWords ext text).length : ℚ) * mt) →
        detect_bad_ocr ext text (some sl) mt st nt = .ok true)) := by
  have hlen : ¬ text.length = 0 := fun hl => h (List.length_eq_zero.mp hl)
  have hnone : spellBranch ext text none mt = false := rfl
  have hmain : detect_bad_ocr ext text none mt st nt =
      .ok (decide ((text.count ' ' : ℚ) / (text.length : ℚ) > st) ||
        decide ((text.count '\n' : ℚ) / (text.length : ℚ) > nt)) := by
    unfold detect_bad_ocr
    rw [hnone, if_neg Bool.false_ne_true, if_neg hlen]
    by_cases hsp : (text.count ' ' : ℚ) / (text.length : ℚ) > st
    · rw [if_pos hsp]
      simp [hsp]
    · rw [if_neg hsp]
      by_cases hnl : (text.count '\n' : ℚ) / (text.length : ℚ) > nt
      · rw [if_pos hnl]
        simp [hsp, hnl]
      · rw [if_neg hnl]
        simp [hsp, hnl]
  refine ⟨hmain, ?_, ?_, ?_⟩
  · intro heq hle
    rw [hmain]
    have h1 : ¬ (text.count ' ' : ℚ) / (text.length : ℚ) > st := by rw [heq]; exact lt_irrefl st
    have h2 : ¬ (text.count '\n' : ℚ) / (text.length : ℚ) > nt := not_lt.mpr hle
    simp [h1, h2]
  · intro hgt
    rw [hmain]
    simp [hgt]
  · intro sl hsl
    have hspell : spellBranch ext text (some sl) mt =
        decide ((ext.unknown sl (alphaWords ext text) : ℚ) +
          (nonalphaWords ext text).length >
          ((dboWords ext text).length : ℚ) * mt) := by
      show (if sl = [] then false else
        decide ((ext.unknown sl (alphaWords ext text) : ℚ) +
          (nonalphaWords ext text).length >
          ((dboWords ext text).length : ℚ) * mt)) = _
      rw [if_neg hsl]
    constructor
    · intro hle
      unfold detect_bad_ocr
      rw [hspell, hnone, if_neg Bool.false_ne_true]
      rw [if_neg (by simpa using not_lt.mpr hle)]
    · intro hgt
      unfold detect_bad_ocr
      rw [hspell]
      rw [if_pos (by simpa using hgt)]

/-- C7 witness: the text `"a "` is exactly 50% spaces; at the default
thresholds it is not declared garbled. -/
theorem C7_witness :
    detect_bad_ocr ext0 ['a', ' '] none misspell_default space_default
      newline_default = .ok false :=
  (C7_strict_thresholds ext0 ['a', ' '] (by decide) misspell_default
    space_default newline_default).2.1 (by decide) (by decide)

/-- C5: if the full-page OCR attempt raises a `RuntimeError`, or the page
quality gate rejects the OCR engine's own recognized text, then
`ocr_entire_page` returns an empty block list, `get_single_page_blocks`
with `ocr=True` returns an empty block list, and a page that entered
ocr-retry in `get_text_blocks` yields the entry
`⟨flag, Page(blocks=[], pnum), retried⟩` — dropped, not crashed. -/
theorem C5_page_ocr_fallback (ext : Ext) (cfg : Cfg) (pext : PageExt)
    (sl : Option Str)
    (h : pext.pageOcr = .error () ∨ ∃ r, pext.pageOcr = .ok r ∧
      detect_bad_ocr ext r.full_text sl misspell_default space_default
        newline_default = .ok true) :
    ocr_entire_page ext pext sl = .ok [] ∧
    (∀ pnum, get_single_page_blocks ext cfg pext pnum sl true = .ok []) ∧
    (∀ dl pnum ex, ocrTrigger dl pnum ex (nativePageObj cfg pext pnum) →
      stepPage ext cfg dl sl pnum ex pext = .ok ⟨ex, ⟨[], pnum⟩, true⟩) := by
  have hocr : ocr_entire_page ext pext sl = .ok [] := by
    unfold ocr_entire_page
    rcases h with herr | ⟨r, hr, hdet⟩
    · rw [herr]
    · rw [hr]
      show (match detect_bad_ocr ext r.full_text sl misspell_default
          space_default newline_default with
        | .error e => Except.error e
        | .ok true => Except.ok []
        | .ok false => Except.ok r.blocks) = Except.ok []
      rw [hdet]
  have hsingle : ∀ pnum, get_single_page_blocks ext cfg pext pnum sl true = .ok [] := by
    intro pnum
    unfold get_single_page_blocks
    have hred : (if true then ocr_entire_page ext pext sl
        else Except.ok pext.native_blocks) = ocr_entire_page ext pext sl := rfl
    rw [hred, hocr]
    rfl
  refine ⟨hocr, hsingle, fun dl pnum ex htrig => ?_⟩
  unfold stepPage
  rw [if_pos htrig, hsingle pnum]

/-- C5 witness: a page whose full-page OCR raises produces an empty block
list. -/
theorem C5_witness :
    ocr_entire_page ext0 (plainPage [['h','i']]) none = .ok [] :=
  (C5_page_ocr_fallback ext0 cfg0 (plainPage [['h','i']]) none (Or.inl rfl)).1

/-- C6: if the fragment OCR raises a `RuntimeError`, or its recognized text
is blank after trimming, `ocr_bbox` returns the original text unchanged,
verbatim. -/
theorem C6_fragment_fallback (fragOcr : BBox → Except Unit Str)
    (old_text : Str) (bb : BBox)
    (h : fragOcr bb = .error () ∨ ∃ t, fragOcr bb = .ok t ∧ pyStrip t = []) :
    ocr_bbox fragOcr old_text bb = old_text := by
  unfold ocr_bbox
  rcases h with herr | ⟨t, ht, hts⟩
  · rw [herr]
  · rw [ht]
    show (if pyStrip t = [] then old_text else
      List.replicate (old_text.length - (pyLStrip old_text).length) ' ' ++ t ++
        List.replicate (old_text.length - (pyRStrip old_text).length) ' ') = old_text
    rw [if_pos hts]

/-- C6 witness: a failing fragment OCR leaves the text `"x"` unchanged. -/
theorem C6_witness : ocr_bbox noFrag ['x'] bb0 = ['x'] :=
  C6_fragment_fallback noFrag ['x'] bb0 (Or.inl rfl)

/-- C4 counterexample: for the original text `"\ta"` (one tab, then `a`),
the OCR engine returning exactly the stripped form `"a"` does not
round-trip: the re-padding uses a plain space, producing `" a" ≠ "\ta"`.
Python's `strip` trims all whitespace but the re-padding inserts only
`' '` characters. -/
theorem C4_counterexample :
    pyStrip ['\t', 'a'] = ['a'] ∧
    ocr_bbox (fun _ => .ok ['a']) ['\t', 'a'] bb0 = [' ', 'a'] ∧
    ocr_bbox (fun _ => .ok ['a']) ['\t', 'a'] bb0 ≠ ['\t', 'a'] := by
  exact ⟨rfl, rfl, by decide⟩

/-- C4 (amended): the fragment OCR round-trip holds whenever the leading
and trailing whitespace actually trimmed from the original text consists
only of plain space characters: if the engine returns the original's
(non-blank) stripped form, re-padding reproduces the original exactly. -/
theorem C4_roundtrip_spaces (fragOcr : BBox → Except Unit Str)
    (old_text : Str) (bb : BBox)
    (hocr : fragOcr bb = .ok (pyStrip old_text))
    (hne : pyStrip old_text ≠ [])
    (hl : ∀ c ∈ old_text.takeWhile pyWs, c = ' ')
    (hr : ∀ c ∈ old_text.rtakeWhile pyWs, c = ' ') :
    ocr_bbox fragOcr old_text bb = old_text := by
  unfold ocr_bbox
  rw [hocr]
  show (if pyStrip (pyStrip old_text) = [] then old_text else
    List.replicate (old_text.length - (pyLStrip old_text).length) ' ' ++
      pyStrip old_text ++
      List.replicate (old_text.length - (pyRStrip old_text).length) ' ') = old_text
  rw [if_neg (by rw [pyStrip_idem_of_ne_nil old_text hne]; exact hne)]
  have hEx : ∃ c ∈ pyLStrip old_text, ¬ pyWs c :=
    exists_not_ws_of_strip_ne_nil old_text hne
  have hT : old_text.rtakeWhile pyWs = (pyLStrip old_text).rtakeWhile pyWs := by
    conv_lhs => rw [← List.takeWhile_append_dropWhile (p := pyWs) (l := old_text)]
    exact rtakeWhile_append_of_exists_not pyWs _ _ hEx
  have hrb : old_text.length - (pyRStrip old_text).length =
      (pyLStrip old_text).length - (pyRStrip (pyLStrip old_text)).length := by
    have h1 := length_rtakeWhile_add_rdropWhile pyWs old_text
    have h2 := length_rtakeWhile_add_rdropWhile pyWs (pyLStrip old_text)
    have hTlen : (old_text.rtakeWhile pyWs).length =
        ((pyLStrip old_text).rtakeWhile pyWs).length := by rw [hT]
    unfold pyRStrip
    omega
  have hP2 : pyStrip old_text ++ List.replicate
      ((pyLStrip old_text).length - (pyRStrip (pyLStrip old_text)).length) ' ' =
      pyLStrip old_text :=
    rdropWhile_append_replicate (pyLStrip old_text)
      (fun c hc => hr c (by rw [hT]; exact hc))
  rw [hrb, List.append_assoc, hP2]
  exact replicate_takeWhile_append old_text hl

/-- C4 witness: for the all-space-padded original `" a "`, a no-op OCR
round-trips exactly. -/
theorem C4_witness :
    ocr_bbox (fun _ => .ok (pyStrip [' ', 'a', ' '])) [' ', 'a', ' '] bb0 =
      [' ', 'a', ' '] :=
  C4_roundtrip_spaces (fun _ => .ok (pyStrip [' ', 'a', ' '])) [' ', 'a', ' ']
    bb0 rfl (by decide) (by decide) (by decide)

/-- C8: for every page built by `get_single_page_blocks` (native or OCR
pass), every retained block has at least one retained line, and every
retained line has strictly positive bounding-box area.  (`Line.area` is
modelled from §3 of the spec, since `marker/schema.py` is not under
`src/`.) -/
theorem C8_hierarchy_invariant (ext : Ext) (cfg : Cfg) (pext : PageExt)
    (pnum : Nat) (sl : Option Str) (ocr : Bool) (blocks : List Block)
    (h : get_single_page_blocks ext cfg pext pnum sl ocr = .ok blocks) :
    ∀ b ∈ blocks, b.lines ≠ [] ∧ ∀ l ∈ b.lines, 0 < l.area := by
  cases ocr with
  | false =>
    rw [get_single_page_blocks_native] at h
    simp only [Except.ok.injEq] at h
    subst h
    intro b hb
    exact buildBlocks_inv cfg pext.fragOcr pnum pext.native_blocks 0 b hb
  | true =>
    obtain ⟨bs, _, hbl⟩ := get_single_page_blocks_ocr_inv h
    subst hbl
    intro b hb
    exact buildBlocks_inv cfg pext.fragOcr pnum bs 0 b hb

/-- C8 witness: the demo page's single retained block has a retained
line. -/
theorem C8_witness :
    ((build_page_blocks cfg0 noFrag 0 [rawBlockOf [['h','i']]]).getD 0
      dummyBlock).lines ≠ [] := by
  have h := C8_hierarchy_invariant ext0 cfg0 (plainPage [['h','i']]) 0 none false
    (build_page_blocks cfg0 noFrag 0 [rawBlockOf [['h','i']]]) rfl
  exact (h _ (by decide)).1

/-- C9: the span identifiers of every page built by
`get_single_page_blocks` with page number `pnum` are all of the form
`"<pnum>_<index>"` with the indices assigned in strict construction order:
in the order the retained spans appear, the identifiers are the image of a
strictly increasing list of indices, and they are pairwise distinct. -/
theorem C9_span_ids (ext : Ext) (cfg : Cfg) (pext : PageExt) (pnum : Nat)
    (sl : Option Str) (ocr : Bool) (blocks : List Block)
    (h : get_single_page_blocks ext cfg pext pnum sl ocr = .ok blocks) :
    List.Pairwise (· ≠ ·) (blockIds blocks) ∧
    ∃ ks : List Nat, blockIds blocks = ks.map (span_id_str pnum) ∧
      List.Pairwise (· < ·) ks := by
  have hmain : ∀ bs : List RawBlock,
      List.Pairwise (· ≠ ·) (blockIds (build_page_blocks cfg pext.fragOcr pnum bs)) ∧
      ∃ ks : List Nat,
        blockIds (build_page_blocks cfg pext.fragOcr pnum bs) =
          ks.map (span_id_str pnum) ∧ List.Pairwise (· < ·) ks := by
    intro bs
    unfold build_page_blocks
    have hsub := buildBlocks_ids cfg pext.fragOcr pnum bs 0
    obtain ⟨ks, hks_sub, hks_eq⟩ := List.sublist_map_iff.mp hsub
    have hks_lt : List.Pairwise (· < ·) ks :=
      (List.pairwise_lt_range' 0 (totalSpansB bs)).sublist hks_sub
    refine ⟨?_, ks, hks_eq, hks_lt⟩
    rw [hks_eq]
    rw [List.pairwise_map]
    exact hks_lt.imp fun hab heq => absurd (span_id_str_inj pnum heq) (Nat.ne_of_lt hab)
  cases ocr with
  | false =>
    rw [get_single_page_blocks_native] at h
    simp only [Except.ok.injEq] at h
    subst h
    exact hmain pext.native_blocks
  | true =>
    obtain ⟨bs, _, hbl⟩ := get_single_page_blocks_ocr_inv h
    subst hbl
    exact hmain bs

/-- C9 witness: the demo page's two spans have identifiers `"4_0"` and
`"4_1"`, pairwise distinct. -/
theorem C9_witness :
    List.Pairwise (· ≠ ·)
      (blockIds (build_page_blocks cfg0 noFrag 4 [rawBlockOf [['a','b'], ['a','b']]])) :=
  (C9_span_ids ext0 cfg0 (plainPage [['a','b'], ['a','b']]) 4 none false
    (build_page_blocks cfg0 noFrag 4 [rawBlockOf [['a','b'], ['a','b']]]) rfl).1

/-! The orchestrator claims. -/

/-- The number of pages the loop of `get_text_blocks` processes, starting
at page `pnum`, when `total` pages remain: all of them unless `max_pages`
is truthy, in which case pages `pnum, …, max_pages − 1`. -/
def expectedLen (mp : Option Nat) (pnum total : Nat) : Nat :=
  match mp with
  | none => total
  | some m => if m = 0 then total else min (m - pnum) total

theorem expectedLen_zero (mp : Option Nat) (pnum : Nat) :
    expectedLen mp pnum 0 = 0 := by
  cases mp with
  | none => rfl
  | some m =>
    by_cases h0 : m = 0
    · simp [expectedLen, h0]
    · simp [expectedLen, h0]

theorem expectedLen_break {mp : Option Nat} {pnum : Nat} (total : Nat)
    (h : pageBreak mp pnum = true) : expectedLen mp pnum total = 0 := by
  cases mp with
  | none => simp [pageBreak] at h
  | some m =>
    by_cases h0 : m = 0
    · simp [pageBreak, h0] at h
    · have hge : m ≤ pnum := by simpa [pageBreak, h0] using h
      simp only [expectedLen, if_neg h0]
      have hz : m - pnum = 0 := by omega
      simp [hz]

theorem expectedLen_cons {mp : Option Nat} {pnum : Nat} (total : Nat)
    (h : pageBreak mp pnum = false) :
    expectedLen mp pnum (total + 1) = expectedLen mp (pnum + 1) total + 1 := by
  cases mp with
  | none => rfl
  | some m =>
    by_cases h0 : m = 0
    · simp [expectedLen, h0]
    · have hlt : pnum < m := by
        have := h
        simp only [pageBreak, if_neg h0] at this
        simpa using this
      simp only [expectedLen, if_neg h0]
      omega

theorem runPages_length_pnum (ext : Ext) (cfg : Cfg) (dl : Nat)
    (sl : Option Str) (mp : Option Nat) :
    ∀ (pages : List PageExt) (pnum : Nat) (flag : Bool) (es : List Entry),
      runPages ext cfg dl sl mp pnum flag pages = .ok es →
      es.length = expectedLen mp pnum pages.length ∧
      (∀ i (hi : i < es.length), (es.get ⟨i, hi⟩).page.pnum = pnum + i) := by
  intro pages
  induction pages with
  | nil =>
    intro pnum flag es h
    simp only [runPages, Except.ok.injEq] at h
    subst h
    refine ⟨(expectedLen_zero mp pnum).symm, ?_⟩
    intro i hi
    simp at hi
  | cons p rest ih =>
    intro pnum flag es h
    simp only [runPages] at h
    by_cases hbk : pageBreak mp pnum = true
    · rw [if_pos hbk] at h
      simp only [Except.ok.injEq] at h
      subst h
      refine ⟨(expectedLen_break (p :: rest).length hbk).symm, ?_⟩
      intro i hi
      simp at hi
    · rw [if_neg hbk] at h
      cases hstep : stepPage ext cfg dl sl pnum flag p with
      | error e =>
        simp only [hstep] at h
        exact Except.noConfusion h
      | ok e =>
        simp only [hstep] at h
        cases hrun : runPages ext cfg dl sl mp (pnum + 1) (!e.retried) rest with
        | error er =>
          simp only [hrun] at h
          exact Except.noConfusion h
        | ok es' =>
          simp only [hrun, Except.ok.injEq] at h
          subst h
          obtain ⟨hlen', hpn'⟩ := ih (pnum + 1) (!e.retried) es' hrun
          have hstepinv := stepPage_ok_inv hstep
          refine ⟨?_, ?_⟩
          · rw [List.length_cons, List.length_cons,
              expectedLen_cons rest.length (Bool.not_eq_true _ ▸ hbk), hlen']
          · intro i hi
            cases i with
            | zero =>
              show e.page.pnum = pnum + 0
              rw [Nat.add_zero]
              exact hstepinv.2.1
            | succ i =>
              show (es'.get ⟨i, by simpa using hi⟩).page.pnum = pnum + (i + 1)
              have := hpn' i (by simpa using hi)
              omega

/-- C10: in `get_text_blocks` the page limit applies only when `max_pages`
is truthy — `None` and `0` disable it (every page is processed,
`expectedLen` reduces to the document's page count), and a positive limit
`m` yields exactly `min m (page count)` pages; in either case the returned
pages carry the page numbers `0, 1, 2, …` in document order, and the table
of contents is passed through unchanged. -/
theorem C10_max_pages {τ : Type} (ext : Ext) (cfg : Cfg) (doc : Doc τ)
    (sl : Option Str) (mp : Option Nat) (pages' : List Page) (toc' : τ)
    (h : get_text_blocks ext cfg doc sl mp = .ok (pages', toc')) :
    pages'.length = expectedLen mp 0 doc.pages.length ∧
    (∀ m, mp = some m → 1 ≤ m →
      pages'.length = min m doc.pages.length) ∧
    (mp = none ∨ mp = some 0 → pages'.length = doc.pages.length) ∧
    (∀ i (hi : i < pages'.length), (pages'.get ⟨i, hi⟩).pnum = i) ∧
    toc' = doc.toc := by
  unfold get_text_blocks at h
  cases hrun : runPages ext cfg doc.pages.length sl mp 0 false doc.pages with
  | error e =>
    simp only [hrun] at h
    exact Except.noConfusion h
  | ok es =>
    simp only [hrun, Except.ok.injEq, Prod.mk.injEq] at h
    obtain ⟨hp, ht⟩ := h
    subst hp
    obtain ⟨hlen, hpn⟩ := runPages_length_pnum ext cfg doc.pages.length sl mp
      doc.pages 0 false es hrun
    have hlen2 : (List.map Entry.page es).length = expectedLen mp 0 doc.pages.length := by
      rw [List.length_map]
      exact hlen
    refine ⟨hlen2, ?_, ?_, ?_, ht.symm⟩
    · intro m hm hm1
      subst hm
      rw [hlen2]
      simp only [expectedLen, if_neg (by omega : ¬ m = 0)]
      omega
    · intro hcase
      rw [hlen2]
      rcases hcase with hm | hm <;> subst hm <;> simp [expectedLen]
    · intro i hi
      have hi' : i < es.length := by
        rw [List.length_map] at hi
        exact hi
      have hmap : (List.map Entry.page es).get ⟨i, hi⟩ = (es.get ⟨i, hi'⟩).page := by
        simp
      rw [hmap]
      have := hpn i hi'
      omega

/-- C10 witness: with `max_pages = 2` the 7-page demo document yields
exactly 2 pages. -/
theorem C10_witness : demoResultPages.length = 2 := by
  have h : get_text_blocks ext0 cfg0 demoDoc none (some 2) =
      .ok (demoResultPages, demoResultToc) := rfl
  have H := (C10_max_pages ext0 cfg0 demoDoc none (some 2) demoResultPages
    demoResultToc h).2.1 2 rfl (by omega)
  rw [H]
  decide

/-- C2 (amended): the cross-page `page_extracted` flag consulted by page
`p` is `false` for the first processed page and otherwise equals the
negation of whether the immediately preceding processed page entered
ocr-retry.  It is therefore not the monotone "some earlier page achieved a
successful native extraction" signal the claim describes: a page that
enters ocr-retry resets it to `False` even when earlier pages succeeded. -/
theorem C2_flag_law (ext : Ext) (cfg : Cfg) (dl : Nat) (sl : Option Str)
    (mp : Option Nat) :
    ∀ (pages : List PageExt) (pnum : Nat) (flag : Bool) (es : List Entry),
      runPages ext cfg dl sl mp pnum flag pages = .ok es →
      (∀ h0 : 0 < es.length, (es.get ⟨0, h0⟩).flagIn = flag) ∧
      (∀ i (hi : i + 1 < es.length),
        (es.get ⟨i + 1, hi⟩).flagIn =
          !(es.get ⟨i, Nat.lt_of_succ_lt hi⟩).retried) := by
  intro pages
  induction pages with
  | nil =>
    intro pnum flag es h
    simp only [runPages, Except.ok.injEq] at h
    subst h
    refine ⟨fun h0 => by simp at h0, fun i hi => by simp at hi⟩
  | cons p rest ih =>
    intro pnum flag es h
    simp only [runPages] at h
    by_cases hbk : pageBreak mp pnum = true
    · rw [if_pos hbk] at h
      simp only [Except.ok.injEq] at h
      subst h
      refine ⟨fun h0 => by simp at h0, fun i hi => by simp at hi⟩
    · rw [if_neg hbk] at h
      cases hstep : stepPage ext cfg dl sl pnum flag p with
      | error e =>
        simp only [hstep] at h
        exact Except.noConfusion h
      | ok e =>
        simp only [hstep] at h
        cases hrun : runPages ext cfg dl sl mp (pnum + 1) (!e.retried) rest with
        | error er =>
          simp only [hrun] at h
          exact Except.noConfusion h
        | ok es' =>
          simp only [hrun, Except.ok.injEq] at h
          subst h
          obtain ⟨ihfst, ihsnd⟩ := ih (pnum + 1) (!e.retried) es' hrun
          refine ⟨fun h0 => (stepPage_ok_inv hstep).1, fun i hi => ?_⟩
          cases i with
          | zero =>
            show (es'.get ⟨0, by simpa using hi⟩).flagIn = !e.retried
            exact ihfst (by simpa using hi)
          | succ i =>
            show (es'.get ⟨i + 1, by simpa using hi⟩).flagIn =
              !(es'.get ⟨i, by simp at hi; omega⟩).retried
            exact ihsnd i (by simpa using hi)

/-- C2 witness: in the demo run, the flag consulted by page 4 equals the
negation of page 3's ocr-retry decision. -/
theorem C2_witness :
    (demoEntries.get ⟨4, by decide⟩).flagIn =
      !(demoEntries.get ⟨3, by decide⟩).retried := by
  have h : runPages ext0 cfg0 7 none none 0 false demoPages =
      .ok demoEntries := rfl
  exact (C2_flag_law ext0 cfg0 7 none none demoPages 0 false demoEntries h).2
    3 (by decide)

/-- C2 counterexample: in the 7-page demo document, page 0 is extracted
natively (`retried = false`, a successful native extraction), yet the flag
consulted by page 4 is `false` because page 3 entered ocr-retry and reset
it.  The claim's "true iff some earlier page achieved a successful native
extraction" (and its monotonicity) is false at this input: the full
per-page `retried` and consulted-flag traces are listed. -/
theorem C2_counterexample :
    retriedList demoRun = [false, false, false, true, true, false, false] ∧
    flagInList demoRun = [false, true, true, true, false, false, true] := by
  exact ⟨by decide, by decide⟩

/-- C3 (amended): a page enters ocr-retry iff the `ocrTrigger` condition
holds: (fewer than 3 non-blank lines AND the consulted `page_extracted`
flag is false) OR alphanumeric ratio below 0.6, AND the page index is
neither among the first 3 nor the last 2.  The consulted flag is *not*
"no prior page has yet produced a successful native extraction": it is
false exactly when the page is first or the immediately preceding page
entered ocr-retry (see the C2 theorems). -/
theorem C3_trigger_law (ext : Ext) (cfg : Cfg) (dl : Nat) (sl : Option Str)
    (mp : Option Nat) :
    ∀ (pages : List PageExt) (pnum : Nat) (flag : Bool) (es : List Entry),
      runPages ext cfg dl sl mp pnum flag pages = .ok es →
      ∀ i (hi : i < es.length) (hip : i < pages.length),
        ((es.get ⟨i, hi⟩).retried = true ↔
          ocrTrigger dl (pnum + i) ((es.get ⟨i, hi⟩).flagIn)
            (nativePageObj cfg (pages.get ⟨i, hip⟩) (pnum + i))) := by
  intro pages
  induction pages with
  | nil =>
    intro pnum flag es h i hi hip
    simp at hip
  | cons p rest ih =>
    intro pnum flag es h i hi hip
    simp only [runPages] at h
    by_cases hbk : pageBreak mp pnum = true
    · rw [if_pos hbk] at h
      simp only [Except.ok.injEq] at h
      subst h
      simp at hi
    · rw [if_neg hbk] at h
      cases hstep : stepPage ext cfg dl sl pnum flag p with
      | error e =>
        simp only [hstep] at h
        exact Except.noConfusion h
      | ok e =>
        simp only [hstep] at h
        cases hrun : runPages ext cfg dl sl mp (pnum + 1) (!e.retried) rest with
        | error er =>
          simp only [hrun] at h
          exact Except.noConfusion h
        | ok es' =>
          simp only [hrun, Except.ok.injEq] at h
          subst h
          have hstepinv := stepPage_ok_inv hstep
          cases i with
          | zero =>
            show e.retried = true ↔
              ocrTrigger dl (pnum + 0) e.flagIn (nativePageObj cfg p (pnum + 0))
            rw [Nat.add_zero, hstepinv.1]
            exact hstepinv.2.2.1
          | succ i =>
            show (es'.get ⟨i, by simpa using hi⟩).retried = true ↔
              ocrTrigger dl (pnum + (i + 1))
                ((es'.get ⟨i, by simpa using hi⟩).flagIn)
                (nativePageObj cfg (rest.get ⟨i, by simpa using hip⟩)
                  (pnum + (i + 1)))
            rw [show pnum + (i + 1) = pnum + 1 + i by omega]
            exact ih (pnum + 1) (!e.retried) es' hrun i (by simpa using hi)
              (by simpa using hip)

/-- C3 witness: in the demo run, page 3 (garbled native text, interior
position) entered ocr-retry, and the trigger condition characterises it. -/
theorem C3_witness :
    (demoEntries.get ⟨3, by decide⟩).retried = true ↔
      ocrTrigger 7 3 ((demoEntries.get ⟨3, by decide⟩).flagIn)
        (nativePageObj cfg0 (demoPages.get ⟨3, by decide⟩) 3) := by
  have h : runPages ext0 cfg0 7 none none 0 false demoPages =
      .ok demoEntries := rfl
  exact C3_trigger_law ext0 cfg0 7 none none demoPages 0 false demoEntries h
    3 (by decide) (by decide)

/-- C3 counterexample: in the 7-page demo document, page 4's native pass
has exactly 2 non-blank lines and alphanumeric ratio 1 (not below 0.6),
and page 0 was successfully extracted natively before it — so by the claim
page 4 must not enter ocr-retry (its only applicable trigger clause
requires that *no prior page* achieved a successful native extraction).
The code does re-process page 4 with full-page OCR, because the flag it
consults was reset by page 3's retry. -/
theorem C3_counterexample :
    (retriedList demoRun).getD 0 true = false ∧
    (retriedList demoRun).getD 4 false = true ∧
    ¬ alphanum_ratio demoPage4native.prelim_text < 3/5 ∧
    demoPage4native.get_nonblank_lines.length = 2 := by
  exact ⟨by decide, by decide, by decide, by decide⟩

end Marker
